import Mathlib

/-!
Verification of the expense-tracking client's normalization and aggregation
core (NE-MOBILE).  The TypeScript source is shallowly embedded:

* JavaScript numbers are modelled as exact rationals (`Rat`); the special
  values produced by division by zero are modelled explicitly by `JSNumber`.
* JavaScript string fields of a raw API record are modelled as
  `Option String`, where `none` stands for an absent (`undefined`/`null`)
  field and `some ""` for an empty string; both are falsy for `||`.
* every call of `new Date().toISOString()` occurring during one
  normalization pass is modelled by a single parameter `now : String`
  (a single-instant model of the wall clock).
* `parseFloat` is modelled for the alphabet that can actually reach it in
  this code base: `normalizeExpense` first strips every character that is
  not a digit, `'.'` or `'-'`, so the model only covers that alphabet
  (no exponents, no `"Infinity"`, no leading whitespace can survive the
  strip).
-/

/-- Falsy-aware field access: the JavaScript idiom `v || d` on a string
field (`undefined`, `null` and `""` are falsy). -/
def jsOr : Option String → String → String
  | none, d => d
  | some s, d => if s = "" then d else s

/-- Truthiness of an optional string field (`undefined`/`null`/`""` are
falsy). -/
def truthyStr : Option String → Bool
  | none => false
  | some s => !(s == "")

/-- Value found in the `amount` field of a raw API record: a number, a
string, or absent (`undefined`/`null`). -/
inductive RawAmount where
  | num (q : Rat)
  | str (s : String)
  | absent
deriving DecidableEq, Repr

/-- Raw expense record as received from the external API
(`src/utils/debug.ts`, parameter `expense: any` of `normalizeExpense`).
Key presence is not guaranteed; absent keys are `none`. -/
structure RawRecord where
  id : Option String
  title : Option String
  name : Option String
  amount : RawAmount
  category : Option String
  description : Option String
  date : Option String
  userId : Option String
  createdAt : Option String
  updatedAt : Option String
deriving DecidableEq, Repr

/-- Canonical expense entity (`src/types`, interface `Expense`). -/
structure Expense where
  id : String
  title : String
  amount : Rat
  category : String
  description : String
  date : String
  userId : String
  createdAt : String
  updatedAt : String
deriving DecidableEq, Repr

/-- Character strip performed on string amounts
(`cleanAmount.replace(/[^0-9.-]/g, '')`, src/utils/debug.ts:57). -/
def stripAmountChars (s : String) : List Char :=
  s.toList.filter (fun c => c.isDigit || c == '.' || c == '-')

/-- Numeric value of a digit string (most significant first). -/
def digitsToNat (cs : List Char) : Nat :=
  cs.foldl (fun n c => 10 * n + (c.toNat - 48)) 0

/-- Longest-prefix parse of an unsigned decimal literal over the alphabet
`[0-9.-]`: either `digits ['.' digits?]` or `'.' digits`; `none` when no
prefix parses (JavaScript `parseFloat` returning `NaN`). -/
def parseUnsigned (cs : List Char) : Option Rat :=
  let intPart := cs.takeWhile Char.isDigit
  let rest := cs.dropWhile Char.isDigit
  if intPart.isEmpty then
    match rest with
    | '.' :: rest2 =>
      let fracPart := rest2.takeWhile Char.isDigit
      if fracPart.isEmpty then none
      else some ((digitsToNat fracPart : Rat) / (10 : Rat) ^ fracPart.length)
    | _ => none
  else
    match rest with
    | '.' :: rest2 =>
      let fracPart := rest2.takeWhile Char.isDigit
      some ((digitsToNat intPart : Rat)
            + (digitsToNat fracPart : Rat) / (10 : Rat) ^ fracPart.length)
    | _ => some (digitsToNat intPart : Rat)

/-- JavaScript `parseFloat`, restricted to the post-strip alphabet
`[0-9.-]`: an optional leading `'-'` followed by an unsigned literal. -/
def jsParseFloat (cs : List Char) : Option Rat :=
  match cs with
  | '-' :: rest => (parseUnsigned rest).map (fun q => -q)
  | _ => parseUnsigned cs

/-- Amount coercion of `normalizeExpense` (src/utils/debug.ts:54-65):
`let cleanAmount = expense.amount || 0`, the string branch
`parseFloat(cleanAmount.replace(/[^0-9.-]/g, '')) || 0`, and the cap
`if (cleanAmount > 999999999) cleanAmount = 999999999`. -/
def coerceAmount (a : RawAmount) : Rat :=
  let clean : Rat :=
    match a with
    | .absent => 0
    | .num q => if q = 0 then 0 else q
    | .str s =>
      if s = "" then 0
      else
        match jsParseFloat (stripAmountChars s) with
        | none => 0
        | some q => q
  if clean > 999999999 then 999999999 else clean

/-- Record normalizer `debug.normalizeExpense` (src/utils/debug.ts:36-82).
`now` models `new Date().toISOString()` for this invocation. -/
def normalizeExpense (now : String) (raw : Option RawRecord) : Expense :=
  match raw with
  | none =>
    { id := ""
      title := "Invalid Expense"
      amount := 0
      category := "Other"
      description := ""
      date := now
      userId := ""
      createdAt := now
      updatedAt := now }
  | some e =>
    { id := jsOr e.id ""
      title := jsOr e.title (jsOr e.name "Untitled Expense")
      amount := coerceAmount e.amount
      category := jsOr e.category "Other"
      description := jsOr e.description ""
      date := jsOr e.date (jsOr e.createdAt now)
      userId := jsOr e.userId ""
      createdAt := jsOr e.createdAt now
      updatedAt := jsOr e.updatedAt (jsOr e.createdAt now) }

/-- Cast of a normalized `Expense` back to the raw-record shape (every key
present, no `name` key). -/
def toRaw (e : Expense) : RawRecord :=
  { id := some e.id
    title := some e.title
    name := none
    amount := .num e.amount
    category := some e.category
    description := some e.description
    date := some e.date
    userId := some e.userId
    createdAt := some e.createdAt
    updatedAt := some e.updatedAt }

/-- Category used for aggregation: `expense.category || 'Other'`
(src/app/(tabs)/dashboard.tsx:198). -/
def normCat (e : Expense) : String :=
  if e.category = "" then "Other" else e.category

/-- One step of `categoryTotals[category] = (categoryTotals[category] || 0)
+ amount`: add `a` to the entry of key `c`, appending a new entry at the
end when the key is new (JavaScript object keys keep insertion order for
non-index keys). -/
def addAmount : List (String × Rat) → String → Rat → List (String × Rat)
  | [], c, a => [(c, a)]
  | (k, v) :: t, c, a =>
    if k = c then (k, v + a) :: t else (k, v) :: addAmount t c a

/-- Accumulation loop of `getCategoryBreakdown`
(src/app/(tabs)/dashboard.tsx:195-201): per-category sums in
first-encountered key order. -/
def categoryTotals (l : List Expense) : List (String × Rat) :=
  l.foldl (fun acc e => addAmount acc (normCat e) e.amount) []

/-- `getCategoryBreakdown` (src/app/(tabs)/dashboard.tsx:194-207):
per-category sums, stable-sorted descending by amount
(`.sort((a, b) => b.amount - a.amount)`, stable per ES2019), then
`.slice(0, 5)`. -/
def getCategoryBreakdown (l : List Expense) : List (String × Rat) :=
  ((categoryTotals l).mergeSort (fun p q => decide (q.2 ≤ p.2))).take 5

/-- `calculateTotalExpenses` (src/app/(tabs)/dashboard.tsx:166-171); on
normalized expenses `amount` is already a number, so the string branch of
the reducer is dead. -/
def calculateTotalExpenses (l : List Expense) : Rat :=
  l.foldl (fun total e => total + e.amount) 0

/-- JavaScript number: a finite rational or one of the special values that
division by zero produces. -/
inductive JSNumber where
  | finite (q : Rat)
  | posInf
  | negInf
  | nan
deriving DecidableEq, Repr

/-- JavaScript division on finite operands. -/
def jsDiv (a b : Rat) : JSNumber :=
  if b = 0 then
    if a = 0 then .nan else if 0 < a then .posInf else .negInf
  else .finite (a / b)

/-- Multiplication of a JavaScript number by a positive finite constant. -/
def jsMulPos (x : JSNumber) (c : Rat) : JSNumber :=
  match x with
  | .finite q => .finite (q * c)
  | .posInf => .posInf
  | .negInf => .negInf
  | .nan => .nan

/-- `percentageUsed = (currentMonthSpent / budgetSettings.monthlyLimit) *
100`, computed unconditionally by `BudgetProvider`
(src/app/index.tsx:150 of the Budget context module). -/
def percentageUsed (currentMonthSpent monthlyLimit : Rat) : JSNumber :=
  jsMulPos (jsDiv currentMonthSpent monthlyLimit) 100

/-- Alert dialogs that `checkBudgetAlert` can show. -/
inductive BudgetAlert where
  | approachingThreshold
  | wouldExceedLimit
deriving DecidableEq, Repr

/-- `checkBudgetAlert(newExpenseAmount)` (src/app/index.tsx:121-147 of the
Budget context module): two independent `if` statements, each showing one
alert dialog; the function reads the budget state and mutates nothing.
The returned list holds the alerts shown, in program order. -/
def checkBudgetAlert (monthlyLimit notificationThreshold
    currentMonthSpent newExpenseAmount : Rat) : List BudgetAlert :=
  let projectedSpent := currentMonthSpent + newExpenseAmount
  let projectedPercentage := projectedSpent / monthlyLimit * 100
  (if projectedPercentage ≥ notificationThreshold ∧
      currentMonthSpent < monthlyLimit * (notificationThreshold / 100) then
    [.approachingThreshold]
  else []) ++
  (if projectedSpent > monthlyLimit then [.wouldExceedLimit] else [])

/-- Substring test on character lists: JavaScript `hay.includes(needle)`. -/
def containsSub (needle : List Char) : List Char → Bool
  | [] => needle.isEmpty
  | c :: t => needle.isPrefixOf (c :: t) || containsSub needle t

/-- Lower-cased character list of a string: JavaScript `s.toLowerCase()`
(character-wise case folding). -/
def lowerChars (s : String) : List Char :=
  s.toList.map Char.toLower

/-- Text-match predicate of `filterExpenses` (src/unnamed/part_001:116-130):
case-insensitive substring match of the query against title, category and
description; a record matches when any field contains the query.  On
normalized expenses all three fields are present, so the optional-chaining
and catch branches of the source are dead. -/
def matchesSearchQuery (searchQuery : String) (e : Expense) : Bool :=
  containsSub (lowerChars searchQuery) (lowerChars e.title) ||
  containsSub (lowerChars searchQuery) (lowerChars e.category) ||
  containsSub (lowerChars searchQuery) (lowerChars e.description)

/-- `filterExpenses` (src/unnamed/part_001:109-159): optional text filter
(guarded by `searchQuery.trim()` truthiness), optional category filter
(guarded by `selectedCategory` truthiness, exact `===` match), then a
stable sort by date descending.  `key` abstracts the runtime date parse
`new Date(x.date || x.createdAt || new Date()).getTime()` of
lines 148-152. -/
def filterExpenses (key : Expense → Int) (searchQuery selectedCategory : String)
    (expenses : List Expense) : List Expense :=
  let afterSearch :=
    if searchQuery.trim ≠ "" then
      expenses.filter (matchesSearchQuery searchQuery)
    else expenses
  let afterCategory :=
    if selectedCategory ≠ "" then
      afterSearch.filter (fun e => e.category == selectedCategory)
    else afterSearch
  afterCategory.mergeSort (fun a b => decide (key b ≤ key a))

/-- Raw records whose `id` field is truthy. -/
def rawIdTruthy : Option RawRecord → Bool
  | none => false
  | some e => truthyStr e.id

/-- Shared screen-level pipeline of `loadExpenses` on the expenses list,
dashboard and budget screens (src/unnamed/part_001:78-87,
src/app/(tabs)/dashboard.tsx:121-130, src/app/(tabs)/budget.tsx:93-102):
`data.map(e => debug.normalizeExpense(e)).filter(e => e && e.id)`; a
normalized expense is always a truthy object, so the filter keeps exactly
the records with non-empty `id`. -/
def loadExpenses (now : String) (data : List (Option RawRecord)) : List Expense :=
  (data.map (normalizeExpense now)).filter (fun e => !(e.id == ""))

/-- Amount coercion as the specification words it: finite numbers pass
through, values exceeding 999,999,999 are returned as exactly 999999999,
strings are stripped to `[0-9.-]` and parsed as a float (0 when the parse
is not finite), null/undefined yield 0, negative amounts pass through
unclamped. -/
def coerceAmountSpec : RawAmount → Rat
  | .absent => 0
  | .num q => if 999999999 < q then 999999999 else q
  | .str s =>
    match jsParseFloat (stripAmountChars s) with
    | none => 0
    | some q => if 999999999 < q then 999999999 else q

/-- Sum of the amounts of a list of expenses (specification side). -/
def sumAmounts (l : List Expense) : Rat :=
  (l.map Expense.amount).sum

/-- Sum of the amounts of the expenses of one category (specification
side). -/
def categorySum (l : List Expense) (c : String) : Rat :=
  sumAmounts (l.filter (fun e => normCat e == c))

/-- Distinct elements of a list in first-encountered order (specification
side). -/
def dedupKeepFirst (cs : List String) : List String :=
  cs.foldl (fun acc c => if c ∈ acc then acc else acc ++ [c]) []

/-- Total associated with a key in an association list, 0 when absent. -/
def lookupTotal : List (String × Rat) → String → Rat
  | [], _ => 0
  | (k, v) :: t, c => if k = c then v else lookupTotal t c

/-- Record filter as the specification words it: a case-insensitive
substring match of the query against title, category and description (any
field, with an empty or whitespace-only query matching everything), ANDed
with an exact category-equality filter (an empty filter matching
everything). -/
def filterClaimPred (searchQuery selectedCategory : String) (e : Expense) : Bool :=
  (searchQuery.trim == "" ||
    containsSub (lowerChars searchQuery) (lowerChars e.title) ||
    containsSub (lowerChars searchQuery) (lowerChars e.category) ||
    containsSub (lowerChars searchQuery) (lowerChars e.description)) &&
  (selectedCategory == "" || e.category == selectedCategory)

/-- Raw record with every key absent (the JavaScript object literal
`\x7b\x7d`). -/
def emptyRaw : RawRecord :=
  { id := none, title := none, name := none, amount := .absent,
    category := none, description := none, date := none, userId := none,
    createdAt := none, updatedAt := none }

lemma jsOr_some_empty (s : String) : jsOr (some s) "" = s := by
  by_cases h : s = "" <;> simp [jsOr, h]

lemma jsOr_some_of_ne {s : String} (h : s ≠ "") (d : String) :
    jsOr (some s) d = s := by
  simp [jsOr, h]

lemma jsOr_ne_empty {d : String} (v : Option String) (h : d ≠ "") :
    jsOr v d ≠ "" := by
  cases v with
  | none => simpa [jsOr] using h
  | some s =>
    by_cases hs : s = "" <;> simp [jsOr, hs, h]

lemma clamp_le (x : Rat) :
    (if x > 999999999 then (999999999 : Rat) else x) ≤ 999999999 := by
  split <;> rename_i h
  · exact le_refl _
  · exact le_of_not_lt h

lemma coerceAmount_le_cap (a : RawAmount) : coerceAmount a ≤ 999999999 :=
  clamp_le _

lemma coerceAmount_num_of_le {q : Rat} (h : q ≤ 999999999) :
    coerceAmount (.num q) = q := by
  by_cases h0 : q = 0 <;> simp [coerceAmount, h0, not_lt.mpr h]

lemma normalizeExpense_populated {now : String} (raw : Option RawRecord)
    (h : now ≠ "") :
    (normalizeExpense now raw).title ≠ "" ∧
    (normalizeExpense now raw).category ≠ "" ∧
    (normalizeExpense now raw).date ≠ "" ∧
    (normalizeExpense now raw).createdAt ≠ "" ∧
    (normalizeExpense now raw).updatedAt ≠ "" := by
  cases raw with
  | none =>
    simp only [normalizeExpense]
    exact ⟨by decide, by decide, h, h, h⟩
  | some e =>
    refine ⟨?_, ?_, ?_, ?_, ?_⟩
    · exact jsOr_ne_empty e.title (jsOr_ne_empty e.name (by decide))
    · exact jsOr_ne_empty e.category (by decide)
    · exact jsOr_ne_empty e.date (jsOr_ne_empty e.createdAt h)
    · exact jsOr_ne_empty e.createdAt h
    · exact jsOr_ne_empty e.updatedAt (jsOr_ne_empty e.createdAt h)

lemma normalizeExpense_amount_le {now : String} (raw : Option RawRecord) :
    (normalizeExpense now raw).amount ≤ 999999999 := by
  cases raw with
  | none => norm_num [normalizeExpense]
  | some e => exact coerceAmount_le_cap e.amount

lemma renormalize_eq (n : Expense) (now2 : String)
    (hT : n.title ≠ "") (hC : n.category ≠ "") (hD : n.date ≠ "")
    (hCr : n.createdAt ≠ "") (hU : n.updatedAt ≠ "")
    (hA : n.amount ≤ 999999999) :
    normalizeExpense now2 (some (toRaw n)) = n := by
  obtain ⟨i, t, a, c, d, dt, u, cr, up⟩ := n
  simp only [normalizeExpense, toRaw] at *
  congr 1
  · exact jsOr_some_empty i
  · exact jsOr_some_of_ne hT _
  · exact coerceAmount_num_of_le hA
  · exact jsOr_some_of_ne hC _
  · exact jsOr_some_empty d
  · exact jsOr_some_of_ne hD _
  · exact jsOr_some_empty u
  · exact jsOr_some_of_ne hCr _
  · exact jsOr_some_of_ne hU _

/-- Totality contract of the normalizer, amended to the source placeholder
title: every normalized record has non-empty title, category, date,
createdAt and updatedAt, and a null/undefined input yields the placeholder
record with empty id and title `"Invalid Expense"`. -/
def normalizeTotalClaim (now : String) (raw : Option RawRecord) : Prop :=
  (normalizeExpense now raw).title ≠ "" ∧
  (normalizeExpense now raw).category ≠ "" ∧
  (normalizeExpense now raw).date ≠ "" ∧
  (normalizeExpense now raw).createdAt ≠ "" ∧
  (normalizeExpense now raw).updatedAt ≠ "" ∧
  (raw = none → normalizeExpense now raw =
    { id := "", title := "Invalid Expense", amount := 0, category := "Other",
      description := "", date := now, userId := "", createdAt := now,
      updatedAt := now })

/-- C1 (counterexample): for null/undefined input the placeholder title
produced by `normalizeExpense` is `"Invalid Expense"`, not the
`"Untitled Expense"` the claim states. -/
theorem normalizeExpense_null_title_cex :
    (normalizeExpense "2024-01-01T00:00:00.000Z" none).title = "Invalid Expense" ∧
    (normalizeExpense "2024-01-01T00:00:00.000Z" none).title ≠ "Untitled Expense" := by
  constructor <;> decide

/-- C1 (amended): `normalizeExpense` is total — for every raw input,
including null/undefined and records with any subset of keys, it returns a
fully-populated `Expense` (no empty required string field except `id`),
and for null/undefined input it returns the placeholder record with empty
`id` and title `"Invalid Expense"`. -/
theorem normalizeExpense_total (now : String) (raw : Option RawRecord)
    (h : now ≠ "") : normalizeTotalClaim now raw := by
  obtain ⟨h1, h2, h3, h4, h5⟩ := normalizeExpense_populated raw h
  refine ⟨h1, h2, h3, h4, h5, ?_⟩
  rintro rfl
  rfl

/-- C1 (witness): the amended totality claim evaluated at a concrete
instant, for the null input and for a partially-populated record. -/
theorem normalizeExpense_total_witness :
    ("2024-01-01T00:00:00.000Z" : String) ≠ "" ∧
    normalizeTotalClaim "2024-01-01T00:00:00.000Z" none ∧
    normalizeTotalClaim "2024-01-01T00:00:00.000Z" (some emptyRaw) :=
  ⟨by decide, normalizeExpense_total _ _ (by decide),
    normalizeExpense_total _ _ (by decide)⟩

lemma coerceAmount_str_some {s : String} {q : Rat} (h : ¬s = "")
    (hp : jsParseFloat (stripAmountChars s) = some q) :
    coerceAmount (.str s) = if 999999999 < q then 999999999 else q := by
  simp [coerceAmount, h, hp, gt_iff_lt]

lemma coerceAmount_str_none {s : String} (h : ¬s = "")
    (hp : jsParseFloat (stripAmountChars s) = none) :
    coerceAmount (.str s) = 0 := by
  simp [coerceAmount, h, hp]

/-- C2: amount coercion conforms to the specification: finite numbers pass
through except that values exceeding 999,999,999 are clamped to exactly
999999999, strings are stripped to `[0-9.-]` and parsed as a float with 0
for an unparsable remainder, null/undefined yield 0; in particular the
20-nines string is clamped to 999999999, `"12.50abc"` parses to 12.5,
an absent amount yields 0 and -5 passes through unclamped. -/
theorem coerceAmount_conforms :
    (∀ a : RawAmount, coerceAmount a = coerceAmountSpec a) ∧
    coerceAmount (.str "99999999999999999999") = 999999999 ∧
    coerceAmount (.str "12.50abc") = (12.5 : Rat) ∧
    coerceAmount .absent = 0 ∧
    coerceAmount (.num (-5)) = -5 := by
  refine ⟨?_, ?_, ?_, ?_, ?_⟩
  · intro a
    cases a with
    | absent => norm_num [coerceAmount, coerceAmountSpec]
    | num q =>
      by_cases h0 : q = 0
      · simp [coerceAmount, coerceAmountSpec, h0]
      · simp [coerceAmount, coerceAmountSpec, h0, gt_iff_lt]
    | str s =>
      by_cases hs : s = ""
      · subst hs
        have hp : jsParseFloat (stripAmountChars "") = none := rfl
        simp [coerceAmount, coerceAmountSpec, hp]
      · rcases hp : jsParseFloat (stripAmountChars s) with _ | q
        · rw [coerceAmount_str_none hs hp]
          simp [coerceAmountSpec, hp]
        · rw [coerceAmount_str_some hs hp]
          simp [coerceAmountSpec, hp]
  · have hp : jsParseFloat (stripAmountChars "99999999999999999999") =
        some ((99999999999999999999 : Nat) : Rat) := rfl
    rw [coerceAmount_str_some (by decide) hp]
    norm_num
  · have hp : jsParseFloat (stripAmountChars "12.50abc") =
        some (((12 : Nat) : Rat) + ((50 : Nat) : Rat) / (10 : Rat) ^ (2 : Nat)) := rfl
    rw [coerceAmount_str_some (by decide) hp]
    norm_num
  · norm_num [coerceAmount]
  · rw [coerceAmount_num_of_le (by norm_num)]

/-- C3: the Budget provider computes `percentageUsed` unconditionally; with
`monthlyLimit = 0` the division yields Infinity (spend 100) or NaN
(spend 0) instead of raising a `ConfigurationError` as the specification
requires. -/
theorem percentageUsed_unguarded :
    percentageUsed 100 0 = JSNumber.posInf ∧ percentageUsed 0 0 = JSNumber.nan := by
  constructor <;> norm_num [percentageUsed, jsDiv, jsMulPos]

/-- Alert classification of `checkBudgetAlert`, as amended: the
approaching-threshold alert is shown exactly when the projected percentage
reaches the notification threshold while current spend is still below
`monthlyLimit * notificationThreshold / 100`, and the would-exceed alert is
shown exactly when the projected spend exceeds the monthly limit; the two
conditions are independent, so both alerts can be shown for one input. -/
def checkBudgetAlertClaim (L T S A : Rat) : Prop :=
  (BudgetAlert.approachingThreshold ∈ checkBudgetAlert L T S A ↔
    T ≤ (S + A) / L * 100 ∧ S < L * T / 100) ∧
  (BudgetAlert.wouldExceedLimit ∈ checkBudgetAlert L T S A ↔ L < S + A)

/-- C5 (counterexample): with limit 1000, threshold 80, current spend 700
and new amount 400 the projected percentage is 110 and the projected spend
1100, so `checkBudgetAlert` shows BOTH alert dialogs — it does not return
exactly one of three signals. -/
theorem checkBudgetAlert_both_alerts_cex :
    checkBudgetAlert 1000 80 700 400 =
      [BudgetAlert.approachingThreshold, BudgetAlert.wouldExceedLimit] := by
  norm_num [checkBudgetAlert]

/-- C5 (amended): `checkBudgetAlert` is a query over the budget state (it
mutates nothing, it only shows dialogs); each of its two alert conditions
is exactly as the claim states, but the two are evaluated independently
and are not mutually exclusive. -/
theorem checkBudgetAlert_signals (L T S A : Rat) (_h : 0 < L) :
    checkBudgetAlertClaim L T S A := by
  unfold checkBudgetAlertClaim checkBudgetAlert
  dsimp only
  rw [← mul_div_assoc]
  constructor <;> split_ifs with h1 h2 <;> simp_all [ge_iff_le]

/-- C5 (witness): the amended alert classification evaluated at the
concrete state of the counterexample. -/
theorem checkBudgetAlert_signals_witness :
    (0 : Rat) < 1000 ∧ checkBudgetAlertClaim 1000 80 700 400 :=
  ⟨by norm_num, checkBudgetAlert_signals 1000 80 700 400 (by norm_num)⟩

/-- C7: the normalizer is idempotent — normalizing an already-normalized
expense (cast back to raw-record shape) returns it unchanged, whatever
instant the second pass runs at. -/
theorem normalizeExpense_idempotent (now1 now2 : String) (raw : Option RawRecord)
    (h : now1 ≠ "") :
    normalizeExpense now2 (some (toRaw (normalizeExpense now1 raw))) =
      normalizeExpense now1 raw := by
  obtain ⟨h1, h2, h3, h4, h5⟩ := normalizeExpense_populated raw h
  exact renormalize_eq _ _ h1 h2 h3 h4 h5 (normalizeExpense_amount_le raw)

/-- C7 (witness): idempotence evaluated on the empty raw record at two
concrete instants. -/
theorem normalizeExpense_idempotent_witness :
    ("2024-01-05T10:00:00.000Z" : String) ≠ "" ∧
    normalizeExpense "2024-02-01T00:00:00.000Z"
        (some (toRaw (normalizeExpense "2024-01-05T10:00:00.000Z" (some emptyRaw)))) =
      normalizeExpense "2024-01-05T10:00:00.000Z" (some emptyRaw) :=
  ⟨by decide, normalizeExpense_idempotent _ _ _ (by decide)⟩

/-- C8: the normalized `updatedAt` is the raw `updatedAt` when that field
is present (truthy), and otherwise equals the resolved `createdAt` of the
same normalization pass (raw `createdAt` when present, else the
current-time fallback), never a raw absent `createdAt`. -/
theorem normalizeExpense_updatedAt (now : String) (e : RawRecord) :
    (∀ s : String, e.updatedAt = some s → s ≠ "" →
      (normalizeExpense now (some e)).updatedAt = s) ∧
    ((e.updatedAt = none ∨ e.updatedAt = some "") →
      (normalizeExpense now (some e)).updatedAt =
        (normalizeExpense now (some e)).createdAt) := by
  constructor
  · intro s hset hs
    simp [normalizeExpense, hset, jsOr_some_of_ne hs]
  · rintro (hset | hset) <;> simp [normalizeExpense, hset, jsOr]

/-- C8 (witness): for a record with absent `updatedAt` the normalized
`updatedAt` equals the normalized `createdAt`. -/
theorem normalizeExpense_updatedAt_witness :
    (normalizeExpense "2024-01-01T00:00:00.000Z" (some emptyRaw)).updatedAt =
      (normalizeExpense "2024-01-01T00:00:00.000Z" (some emptyRaw)).createdAt :=
  (normalizeExpense_updatedAt _ emptyRaw).2 (Or.inl rfl)

/-- C9 (counterexample): normalizing the same raw record (all keys absent)
at two different instants yields different outputs — re-invocation with
the same input is not deterministic for records missing date/createdAt,
because the current-time fallback is part of the output. -/
theorem normalizeExpense_clock_dependent_cex :
    normalizeExpense "2024-01-01T00:00:00.000Z" (some emptyRaw) ≠
      normalizeExpense "2024-01-02T00:00:00.000Z" (some emptyRaw) := by
  intro hcontra
  have hd := congrArg Expense.date hcontra
  simp [normalizeExpense, emptyRaw, jsOr] at hd

/-- Raw record whose only present key is `createdAt`. -/
def createdAtRaw : RawRecord :=
  { emptyRaw with createdAt := some "2024-01-03T09:30:00.000Z" }

/-- C9 (amended): the normalizer is a pure function of the raw record and
the clock reading; its output is independent of the clock whenever the raw
record carries a truthy `createdAt` (every current-time fallback is then
unreachable).  The aggregator, budget evaluator and filter read no clock
at all. -/
theorem normalizeExpense_clock_independent (e : RawRecord) (s : String)
    (h1 : e.createdAt = some s) (h2 : s ≠ "") (now1 now2 : String) :
    normalizeExpense now1 (some e) = normalizeExpense now2 (some e) := by
  simp [normalizeExpense, h1, jsOr_some_of_ne h2]

/-- C9 (witness): clock-independence evaluated on a record with a concrete
`createdAt` at two concrete instants. -/
theorem normalizeExpense_clock_independent_witness :
    createdAtRaw.createdAt = some "2024-01-03T09:30:00.000Z" ∧
    ("2024-01-03T09:30:00.000Z" : String) ≠ "" ∧
    normalizeExpense "2024-01-01T00:00:00.000Z" (some createdAtRaw) =
      normalizeExpense "2024-01-02T00:00:00.000Z" (some createdAtRaw) :=
  ⟨rfl, by decide, normalizeExpense_clock_independent _ _ rfl (by decide) _ _⟩

lemma normalize_id_truthy (now : String) (r : Option RawRecord) :
    (!((normalizeExpense now r).id == "")) = rawIdTruthy r := by
  cases r with
  | none => simp [normalizeExpense, rawIdTruthy]
  | some e =>
    rcases he : e.id with _ | s
    · simp [normalizeExpense, rawIdTruthy, truthyStr, jsOr, he]
    · by_cases hs : s = "" <;>
        simp [normalizeExpense, rawIdTruthy, truthyStr, jsOr, he, hs]

/-- C10: the screen-level pipeline shared by the expenses list, dashboard
and budget screens drops every normalized record whose `id` is empty right
after normalization: it equals the normalization of only the raw records
with a truthy `id`, and every surviving record has a non-empty `id` — so
placeholder records from id-less raw input never reach the displayed
lists, totals, breakdowns or budget computations. -/
theorem loadExpenses_drops_invalid (now : String) (data : List (Option RawRecord)) :
    loadExpenses now data = (data.filter rawIdTruthy).map (normalizeExpense now) := by
  induction data with
  | nil => rfl
  | cons r t ih =>
    simp only [loadExpenses, List.map_cons, List.filter_cons] at ih ⊢
    rw [normalize_id_truthy]
    cases hb : rawIdTruthy r <;> simp [hb, ih]

/-- C6: the filter operation returns exactly the records satisfying the
conjunction of the text filter (case-insensitive substring of the query in
title, category or description, any field; empty or whitespace-only query
matches everything) and the category filter (exact equality; empty filter
matches everything) — for every sort key, query, category and expense
list, the result is a permutation (reordering only) of that filtered
list. -/
theorem filterExpenses_and_composition (key : Expense → Int) (q c : String)
    (l : List Expense) :
    (filterExpenses key q c l).Perm (l.filter (filterClaimPred q c)) := by
  unfold filterExpenses
  dsimp only
  refine (List.mergeSort_perm _ _).trans ?_
  by_cases hq : q.trim = ""
  · by_cases hc : c = ""
    · rw [if_neg (by simp [hc]), if_neg (by simp [hq]),
        List.filter_eq_self.mpr (fun e _ => by simp [filterClaimPred, hq, hc])]
    · have hcb : (c == "") = false := beq_eq_false_iff_ne.mpr hc
      have hstep : l.filter (fun e => e.category == c) =
          l.filter (filterClaimPred q c) :=
        List.filter_congr (fun e _ => by simp [filterClaimPred, hq, hcb])
      rw [if_pos hc, if_neg (by simp [hq]), hstep]
  · by_cases hc : c = ""
    · have hqb : (q.trim == "") = false := beq_eq_false_iff_ne.mpr hq
      have hstep : l.filter (matchesSearchQuery q) =
          l.filter (filterClaimPred q c) :=
        List.filter_congr
          (fun e _ => by simp [filterClaimPred, matchesSearchQuery, hqb, hc])
      rw [if_neg (by simp [hc]), if_pos hq, hstep]
    · have hqb : (q.trim == "") = false := beq_eq_false_iff_ne.mpr hq
      have hcb : (c == "") = false := beq_eq_false_iff_ne.mpr hc
      have hstep : l.filter
          (fun e => (e.category == c) && matchesSearchQuery q e) =
          l.filter (filterClaimPred q c) := by
        refine List.filter_congr (fun e _ => ?_)
        simp only [filterClaimPred, matchesSearchQuery, hqb, hcb]
        cases h1 : containsSub (lowerChars q) (lowerChars e.title) <;>
          cases h2 : containsSub (lowerChars q) (lowerChars e.category) <;>
          cases h3 : containsSub (lowerChars q) (lowerChars e.description) <;>
          cases h4 : e.category == c <;> simp [h1, h2, h3, h4]
      rw [if_pos hc, if_pos hq, List.filter_filter, hstep]

lemma lookupTotal_addAmount (acc : List (String × Rat)) (c : String) (a : Rat)
    (x : String) :
    lookupTotal (addAmount acc c a) x =
      if x = c then lookupTotal acc x + a else lookupTotal acc x := by
  induction acc with
  | nil =>
    by_cases hx : x = c
    · subst hx; simp [addAmount, lookupTotal]
    · simp [addAmount, lookupTotal, hx, Ne.symm hx]
  | cons p t ih =>
    obtain ⟨k, v⟩ := p
    by_cases hkc : k = c
    · subst hkc
      by_cases hxk : x = k
      · subst hxk; simp [addAmount, lookupTotal]
      · simp [addAmount, lookupTotal, hxk, Ne.symm hxk]
    · by_cases hxk : x = k
      · subst hxk
        simp [addAmount, lookupTotal, hkc, Ne.symm hkc]
      · simp [addAmount, lookupTotal, hkc, hxk, Ne.symm hxk, ih]

lemma addAmount_keys (acc : List (String × Rat)) (c : String) (a : Rat) :
    (addAmount acc c a).map Prod.fst =
      if c ∈ acc.map Prod.fst then acc.map Prod.fst
      else acc.map Prod.fst ++ [c] := by
  induction acc with
  | nil => simp [addAmount]
  | cons p t ih =>
    obtain ⟨k, v⟩ := p
    by_cases hkc : k = c
    · subst hkc; simp [addAmount]
    · by_cases hm : c ∈ t.map Prod.fst <;>
        simp [addAmount, hkc, Ne.symm hkc, hm, ih]

lemma addAmount_sum (acc : List (String × Rat)) (c : String) (a : Rat) :
    ((addAmount acc c a).map Prod.snd).sum = (acc.map Prod.snd).sum + a := by
  induction acc with
  | nil => simp [addAmount]
  | cons p t ih =>
    obtain ⟨k, v⟩ := p
    by_cases hkc : k = c
    · subst hkc; simp [addAmount]; ring
    · simp [addAmount, hkc, ih]; ring

lemma categoryTotals_go_lookup (l : List Expense) :
    ∀ (acc : List (String × Rat)) (x : String),
      lookupTotal (l.foldl (fun acc e => addAmount acc (normCat e) e.amount) acc) x =
        lookupTotal acc x + categorySum l x := by
  induction l with
  | nil => intro acc x; simp [categorySum, sumAmounts]
  | cons e t ih =>
    intro acc x
    rw [List.foldl_cons, ih, lookupTotal_addAmount]
    by_cases hx : x = normCat e
    · have hb : (normCat e == x) = true := by simp [hx]
      simp [hx, categorySum, sumAmounts, List.filter_cons, hb]
      ring
    · have hb : (normCat e == x) = false := beq_eq_false_iff_ne.mpr (Ne.symm hx)
      simp [hx, categorySum, sumAmounts, List.filter_cons, hb]

lemma categoryTotals_go_sum (l : List Expense) :
    ∀ acc : List (String × Rat),
      ((l.foldl (fun acc e => addAmount acc (normCat e) e.amount) acc).map
        Prod.snd).sum = (acc.map Prod.snd).sum + sumAmounts l := by
  induction l with
  | nil => intro acc; simp [sumAmounts]
  | cons e t ih =>
    intro acc
    rw [List.foldl_cons, ih, addAmount_sum]
    simp [sumAmounts]
    ring

lemma categoryTotals_go_keys (l : List Expense) :
    ∀ acc : List (String × Rat),
      (l.foldl (fun acc e => addAmount acc (normCat e) e.amount) acc).map
        Prod.fst =
      (l.map normCat).foldl
        (fun ks c => if c ∈ ks then ks else ks ++ [c]) (acc.map Prod.fst) := by
  induction l with
  | nil => intro acc; rfl
  | cons e t ih =>
    intro acc
    rw [List.foldl_cons, ih, addAmount_keys, List.map_cons, List.foldl_cons]

lemma categoryTotals_keys (l : List Expense) :
    (categoryTotals l).map Prod.fst = dedupKeepFirst (l.map normCat) := by
  simpa [categoryTotals, dedupKeepFirst] using categoryTotals_go_keys l []

lemma categoryTotals_lookup (l : List Expense) (x : String) :
    lookupTotal (categoryTotals l) x = categorySum l x := by
  simpa [categoryTotals, lookupTotal] using categoryTotals_go_lookup l [] x

lemma categoryTotals_sum (l : List Expense) :
    ((categoryTotals l).map Prod.snd).sum = sumAmounts l := by
  simpa [categoryTotals] using categoryTotals_go_sum l []

lemma foldl_insertNew_nodup (cs : List String) :
    ∀ ks : List String, ks.Nodup →
      (cs.foldl (fun acc c => if c ∈ acc then acc else acc ++ [c]) ks).Nodup := by
  induction cs with
  | nil => intro ks h; exact h
  | cons c t ih =>
    intro ks h
    rw [List.foldl_cons]
    refine ih _ ?_
    by_cases hm : c ∈ ks
    · simpa [hm] using h
    · simp [hm, List.nodup_append, h]

lemma dedupKeepFirst_nodup (cs : List String) : (dedupKeepFirst cs).Nodup :=
  foldl_insertNew_nodup cs [] (by simp)

lemma lookup_of_mem (alist : List (String × Rat))
    (hk : (alist.map Prod.fst).Nodup) (p : String × Rat) (hm : p ∈ alist) :
    p.2 = lookupTotal alist p.1 := by
  induction alist with
  | nil => cases hm
  | cons q t ih =>
    obtain ⟨k, v⟩ := q
    rcases List.mem_cons.mp hm with rfl | hmt
    · simp [lookupTotal]
    · have hk1 : k ∉ t.map Prod.fst := (List.nodup_cons.mp hk).1
      have hne : k ≠ p.1 := by
        intro hcontra
        exact hk1 (hcontra ▸ List.mem_map_of_mem Prod.fst hmt)
      simp [lookupTotal, hne, ih (List.nodup_cons.mp hk).2 hmt]

lemma calcTotal_go (l : List Expense) :
    ∀ t0 : Rat, l.foldl (fun t e => t + e.amount) t0 = t0 + sumAmounts l := by
  induction l with
  | nil => intro t0; simp [sumAmounts]
  | cons e t ih =>
    intro t0
    rw [List.foldl_cons, ih]
    simp [sumAmounts]
    ring

lemma calcTotal_eq_sum (l : List Expense) :
    calculateTotalExpenses l = sumAmounts l := by
  simpa [calculateTotalExpenses] using calcTotal_go l 0

lemma amountLe_trans (a b c : String × Rat)
    (h1 : decide (b.2 ≤ a.2) = true) (h2 : decide (c.2 ≤ b.2) = true) :
    decide (c.2 ≤ a.2) = true := by
  simp only [decide_eq_true_eq] at *
  exact le_trans h2 h1

lemma amountLe_total (a b : String × Rat) :
    (decide (b.2 ≤ a.2) || decide (a.2 ≤ b.2)) = true := by
  simp only [Bool.or_eq_true, decide_eq_true_eq]
  exact le_total b.2 a.2

/-- Category-breakdown contract, amended with the unconditional top-5
truncation of the source: entries are the per-category sums in the
claimed sense, sorted descending with ties in first-encountered order,
and their total equals `calculateTotalExpenses` — all guaranteed only
when at most 5 distinct categories occur, since the source always
truncates with `.slice(0, 5)`. -/
def breakdownClaim (l : List Expense) : Prop :=
  ((getCategoryBreakdown l).map Prod.fst).Perm (dedupKeepFirst (l.map normCat)) ∧
  (∀ p ∈ getCategoryBreakdown l, p.2 = categorySum l p.1) ∧
  ((getCategoryBreakdown l).map Prod.snd).sum = calculateTotalExpenses l ∧
  List.Sorted (fun p q : String × Rat => q.2 ≤ p.2) (getCategoryBreakdown l) ∧
  ∀ p q : String × Rat, p.2 = q.2 → List.Sublist [p, q] (categoryTotals l) →
    List.Sublist [p, q] (getCategoryBreakdown l)

/-- An expense with the given category and amount and fixed remaining
fields, used as concrete input for the aggregation claims. -/
def mkExp (c : String) (a : Rat) : Expense :=
  { id := "x", title := "t", amount := a, category := c, description := "",
    date := "2024-01-05T00:00:00.000Z", userId := "u",
    createdAt := "2024-01-05T00:00:00.000Z",
    updatedAt := "2024-01-05T00:00:00.000Z" }

/-- Six expenses in six distinct categories. -/
def sixCatExpenses : List Expense :=
  [mkExp "A" 1, mkExp "B" 1, mkExp "C" 1, mkExp "D" 1, mkExp "E" 1,
    mkExp "F" 1]

/-- Five expenses across three categories. -/
def threeCatExpenses : List Expense :=
  [mkExp "Food & Dining" 4, mkExp "Transportation" 2, mkExp "Food & Dining" 3,
    mkExp "Other" 1, mkExp "Transportation" 5]

/-- C4 (counterexample): `getCategoryBreakdown` has no `topN` parameter —
it always truncates to 5 entries, so on a list with six occurring
categories it returns 5 entries instead of one per occurring category
(and the returned sums can no longer total `calculateTotalExpenses`). -/
theorem getCategoryBreakdown_truncates_cex :
    (getCategoryBreakdown sixCatExpenses).length = 5 ∧
    (dedupKeepFirst (sixCatExpenses.map normCat)).length = 6 := by
  constructor
  · have h6 : (categoryTotals sixCatExpenses).length = 6 := by decide
    simp [getCategoryBreakdown, List.length_take, List.length_mergeSort, h6]
  · decide

/-- C4 (amended): whenever at most 5 distinct categories occur,
`getCategoryBreakdown` returns one entry per occurring category carrying
that category's summed amount, sorted descending by amount with ties in
first-encountered order, and the entry amounts total
`calculateTotalExpenses`. -/
theorem getCategoryBreakdown_correct (l : List Expense)
    (h : (categoryTotals l).length ≤ 5) : breakdownClaim l := by
  have htake : getCategoryBreakdown l =
      (categoryTotals l).mergeSort (fun p q => decide (q.2 ≤ p.2)) := by
    unfold getCategoryBreakdown
    exact List.take_of_length_le (by rw [List.length_mergeSort]; exact h)
  have hperm :
      ((categoryTotals l).mergeSort (fun p q => decide (q.2 ≤ p.2))).Perm
        (categoryTotals l) := List.mergeSort_perm _ _
  have hkeys := categoryTotals_keys l
  have hnodup : ((categoryTotals l).map Prod.fst).Nodup := by
    rw [hkeys]; exact dedupKeepFirst_nodup _
  refine ⟨?_, ?_, ?_, ?_, ?_⟩
  · rw [htake, ← hkeys]
    exact hperm.map Prod.fst
  · intro p hp
    rw [htake] at hp
    have hpm : p ∈ categoryTotals l := hperm.mem_iff.mp hp
    exact (lookup_of_mem _ hnodup p hpm).trans (categoryTotals_lookup l p.1)
  · rw [htake, (hperm.map Prod.snd).sum_eq, categoryTotals_sum,
      calcTotal_eq_sum]
  · rw [htake]
    have hpw := List.sorted_mergeSort amountLe_trans amountLe_total
      (categoryTotals l)
    exact hpw.imp (fun hab => by simpa using hab)
  · intro p q hpq hsub
    rw [htake]
    refine List.sublist_mergeSort amountLe_trans amountLe_total ?_ hsub
    refine List.pairwise_cons.mpr ⟨?_, List.pairwise_singleton _ _⟩
    intro b hb
    rcases List.mem_singleton.mp hb with rfl
    simp [hpq]

/-- C4 (witness): the amended breakdown contract evaluated on five
concrete expenses across three categories. -/
theorem getCategoryBreakdown_correct_witness :
    (categoryTotals threeCatExpenses).length ≤ 5 ∧
    breakdownClaim threeCatExpenses :=
  ⟨by decide, getCategoryBreakdown_correct threeCatExpenses (by decide)⟩
